import Mathlib

/-!
A shallow embedding of `api.go` (package `httpapi`)

The Go file builds the HTTP client of an IPFS daemon: it finds the daemon's
address (`ApiAddr`), constructs the client (`NewApi`, `NewApiWithClient`),
derives scoped clients (`WithOptions`), creates request builders (`request`)
and hands out the ten domain facades.

Objects that Go reaches through pointers (`*gohttp.Client`, `*HttpApi`) live in
an explicit `Heap`; a function that allocates or dereferences takes the heap and
returns the new one.  A nil-pointer dereference is the outcome `Exec.panic`.
Functions of other packages (`manet.DialArgs`, `ma.NewMultiaddr`,
`caopts.ApiOptions`, `homedir.Expand`, `path.Join`, `os.Stat`,
`ioutil.ReadFile`, `os.Getenv`) are fields of `Deps`: every theorem holds for
all of their possible behaviours.
-/

namespace httpapi

/-! ## Values of the Go runtime and of the imported packages -/

/-- A Go `error` value that is not nil, identified by its message. -/
structure GoError where
  msg : String
deriving DecidableEq, Repr

/-- The call `fmt.Errorf(format)` with a format that has no verbs and no
arguments: an error whose message is the format itself. -/
def fmt.Errorf (format : String) : GoError :=
  ⟨format⟩

/-- Outcome of running a Go function: it returns a value or panics. -/
inductive Exec (α : Type) where
  | panic : Exec α
  | done (v : α) : Exec α

/-- A pointer: `none` is Go's `nil`, `some i` is the address of cell `i`. -/
abbrev Ptr := Option Nat

/-- A `ma.Multiaddr` that is not nil, as its binary form. -/
structure Multiaddr where
  bytes : List Nat
deriving DecidableEq, Repr

/-- The type `gohttp.Request`, as far as a redirect policy can look at it. -/
structure Request where
  Method : String
  URL : String
deriving DecidableEq, Repr

/-- The values a `Proxy` field of `gohttp.Transport` takes here. -/
inductive ProxyFunc where
  | ProxyFromEnvironment
  | custom (id : Nat)
deriving DecidableEq, Repr

/-- The type `gohttp.Transport`, with the two fields `NewApi` sets; a field
left out of a composite literal has its zero value. -/
structure Transport where
  Proxy : Option ProxyFunc := none
  DisableKeepAlives : Bool := false
deriving DecidableEq, Repr

/-- The interface `gohttp.RoundTripper`: a `*gohttp.Transport` or some other
implementation. -/
inductive RoundTripper where
  | httpTransport (t : Transport)
  | custom (id : Nat)
deriving DecidableEq, Repr

/-- The type of the field `CheckRedirect`: given the pending request and the
requests made so far, `none` lets the redirect through (a nil error) and
`some e` refuses it with the error `e`. -/
abbrev RedirectPolicy := Request → List Request → Option GoError

/-- The struct `gohttp.Client`.  A `none` field is Go's nil (for `Transport`:
use `DefaultTransport`; for `CheckRedirect`: the default policy, which follows
redirects). -/
structure Client where
  Transport : Option RoundTripper := none
  CheckRedirect : Option RedirectPolicy := none
  Jar : Option Nat := none
  Timeout : Int := 0

/-- The scalar values an option of a request may hold. -/
inductive OptValue where
  | str (s : String)
  | bool (b : Bool)
  | int (i : Int)
deriving DecidableEq, Repr

/-- An attached data stream of a request. -/
structure Attachment where
  name : String
  content : List Nat
  length : Option Nat
  isDirectory : Bool
deriving DecidableEq, Repr

/-- Modelled from the spec: the struct `RequestBuilder`, whose declaration is in
a file of the package that is not among the sources at hand.  The fields
`command`, `args` and `shell` are the ones `request` sets in `api.go`; the
others follow the spec's data model (an option set mapping each option name to
at most one scalar value, attachments, header overrides) and start at their
zero values. -/
structure RequestBuilder where
  command : String
  args : List String
  opts : String → Option OptValue := fun _ => none
  headers : String → Option String := fun _ => none
  attachments : List Attachment := []
  shell : Ptr

/-- Modelled from the spec: the method `RequestBuilder.Option`, declared in a
file of the package that is not among the sources at hand.  The spec: it "sets
one option, overwriting a prior value for the same name", and touches nothing
else of the builder. -/
def RequestBuilder.Option (r : RequestBuilder) (key : String) (value : OptValue) :
    RequestBuilder :=
  { r with opts := fun k => if k = key then some value else r.opts k }

/-- The struct `HttpApi` (api.go, lines 25-30).  `applyGlobal` is a Go
`func(*RequestBuilder)`: it updates the builder in place, here it returns the
updated builder. -/
structure HttpApi where
  url : String
  httpcli : Client
  applyGlobal : RequestBuilder → RequestBuilder

/-- The struct `caopts.ApiSettings`, with the one field this package reads. -/
structure ApiSettings where
  Offline : Bool
deriving DecidableEq, Repr

/-- The type `caopts.ApiOption`: a function that updates the settings or
fails. -/
abbrev ApiOption := ApiSettings → Except GoError ApiSettings

/-- The functions of other packages that `api.go` calls. -/
structure Deps where
  /-- The function `manet.DialArgs`: network and address, or an error. -/
  DialArgs : Multiaddr → Except GoError (String × String)
  /-- The function `ma.NewMultiaddr`. -/
  NewMultiaddr : String → Except GoError Multiaddr
  /-- The function `caopts.ApiOptions`. -/
  ApiOptions : List ApiOption → Except GoError ApiSettings
  /-- The function `homedir.Expand`. -/
  Expand : String → Except GoError String
  /-- The function `path.Join`, on two elements. -/
  Join : String → String → String
  /-- The error result of `os.Stat`, `none` when the call succeeds. -/
  Stat : String → Option GoError
  /-- The function `ioutil.ReadFile`, the content read as text. -/
  ReadFile : String → Except GoError String
  /-- The function `os.Getenv`. -/
  Getenv : String → String

/-! ## The heap -/

/-- The objects allocated so far: cell `i` of a list is at address `i`. -/
structure Heap where
  clients : List Client
  apis : List HttpApi

/-- Read the `gohttp.Client` a pointer refers to; `none` for nil. -/
def Heap.client (h : Heap) (p : Ptr) : Option Client :=
  p.bind fun i => h.clients[i]?

/-- Read the `HttpApi` a pointer refers to; `none` for nil. -/
def Heap.api (h : Heap) (p : Ptr) : Option HttpApi :=
  p.bind fun i => h.apis[i]?

/-- Allocate a `gohttp.Client` (Go's `&gohttp.Client{...}`). -/
def Heap.allocClient (h : Heap) (c : Client) : Ptr × Heap :=
  (some h.clients.length, { h with clients := h.clients ++ [c] })

/-- Allocate an `HttpApi` (Go's `&HttpApi{...}`, or a local that escapes). -/
def Heap.allocApi (h : Heap) (a : HttpApi) : Ptr × Heap :=
  (some h.apis.length, { h with apis := h.apis ++ [a] })

/-! ## api.go -/

def DefaultPathName : String := ".ipfs"

def DefaultPathRoot : String := "~/" ++ DefaultPathName

def DefaultApiFile : String := "api"

def EnvDir : String := "IPFS_PATH"

/-- The predicate `unicode.IsSpace`: the code points with the Unicode property
White_Space. -/
def unicode.IsSpace (r : Char) : Bool :=
  let n := r.toNat
  (0x09 ≤ n && n ≤ 0x0D) || n == 0x20 || n == 0x85 || n == 0xA0 || n == 0x1680 ||
    (0x2000 ≤ n && n ≤ 0x200A) || n == 0x2028 || n == 0x2029 || n == 0x202F ||
    n == 0x205F || n == 0x3000

/-- The function `strings.TrimSpace`: the string without its leading and
trailing white space. -/
def strings.TrimSpace (s : String) : String :=
  String.mk ((s.data.dropWhile unicode.IsSpace).rdropWhile unicode.IsSpace)

/-- The function `ApiAddr` (api.go, lines 50-73).  The result `none` is the nil
multiaddress. -/
def ApiAddr (E : Deps) (ipfspath : String) : Option Multiaddr :=
  match E.Expand ipfspath with
  | .error _ => none
  | .ok baseDir =>
    let apiFile := E.Join baseDir DefaultApiFile
    match E.Stat apiFile with
    | some _ => none
    | none =>
      match E.ReadFile apiFile with
      | .error _ => none
      | .ok api =>
        match E.NewMultiaddr (strings.TrimSpace api) with
        | .error _ => none
        | .ok maddr => some maddr

/-- The redirect policy of lines 106-108. -/
def rejectRedirect : RedirectPolicy :=
  fun _ _ => some (fmt.Errorf "unexpected redirect")

/-- Lines 87-97 of `NewApiWithClient`: the address to dial, `none` when the
first `DialArgs` fails. -/
def dialUrl (E : Deps) (a : Multiaddr) : Option String :=
  match E.DialArgs a with
  | .error _ => none
  | .ok (_, url) =>
    match E.NewMultiaddr url with
    | .error _ => some url
    | .ok a2 =>
      match E.DialArgs a2 with
      | .error _ => some url
      | .ok (_, host) => some host

/-- The function `NewApiWithClient` (api.go, lines 86-111).  The struct literal
copies the client `c` points to into the field `httpcli` (a nil `c` panics
there); the assignment to `api.httpcli.CheckRedirect` then writes to that copy,
inside the new `HttpApi`, before the pointer to it is returned. -/
def NewApiWithClient (E : Deps) (h : Heap) (a : Multiaddr) (c : Ptr) : Exec (Ptr × Heap) :=
  match dialUrl E a with
  | none => .done (none, h)
  | some url =>
    match h.client c with
    | none => .panic
    | some cv =>
      let api : HttpApi := { url := url, httpcli := cv, applyGlobal := fun req => req }
      let api : HttpApi :=
        { api with httpcli := { api.httpcli with CheckRedirect := some rejectRedirect } }
      .done (h.allocApi api)

/-- The function `NewApi` (api.go, lines 75-84). -/
def NewApi (E : Deps) (h : Heap) (a : Multiaddr) : Exec (Ptr × Heap) :=
  let (c, h1) := h.allocClient
    { Transport := some (.httpTransport
        { Proxy := some .ProxyFromEnvironment, DisableKeepAlives := true }) }
  NewApiWithClient E h1 a c

/-- The function `NewPathApi` (api.go, lines 42-48). -/
def NewPathApi (E : Deps) (h : Heap) (p : String) : Exec (Ptr × Heap) :=
  match ApiAddr E p with
  | none => .done (none, h)
  | some a => NewApi E h a

/-- The function `NewLocalApi` (api.go, lines 33-40). -/
def NewLocalApi (E : Deps) (h : Heap) : Exec (Ptr × Heap) :=
  let baseDir := E.Getenv EnvDir
  let baseDir := if baseDir = "" then DefaultPathRoot else baseDir
  NewPathApi E h baseDir

/-- The closure of lines 120-124, for the parsed settings `options`. -/
def offlineGlobal (options : ApiSettings) : RequestBuilder → RequestBuilder :=
  fun req => if options.Offline then req.Option "offline" (.bool options.Offline) else req

/-- The method `HttpApi.WithOptions` (api.go, lines 113-127).  It returns the
pair of Go results (the derived client, the error) and the heap; `subApi`
escapes, so it is allocated. -/
def HttpApi.WithOptions (E : Deps) (h : Heap) (api : Ptr) (opts : List ApiOption) :
    Exec ((Ptr × Option GoError) × Heap) :=
  match E.ApiOptions opts with
  | .error err => .done ((none, some err), h)
  | .ok options =>
    match h.api api with
    | none => .panic
    | some v =>
      let subApi : HttpApi := v
      let subApi : HttpApi := { subApi with applyGlobal := offlineGlobal options }
      let (p, h1) := h.allocApi subApi
      .done ((p, none), h1)

/-- The method `HttpApi.request` (api.go, lines 129-135). -/
def HttpApi.request (api : Ptr) (command : String) (args : List String) : RequestBuilder :=
  { command := command, args := args, shell := api }

/-- The static types of the ten facades; each is declared in the package as a
type whose underlying type is `HttpApi`. -/
inductive FacadeType where
  | UnixfsAPI | BlockAPI | HttpDagServ | NameAPI | KeyAPI
  | PinAPI | ObjectAPI | DhtAPI | SwarmAPI | PubsubAPI
deriving DecidableEq, Repr

/-- A facade value: the result of a pointer conversion such as
`(*UnixfsAPI)(api)`, which keeps the address and changes the static type. -/
structure Facade where
  tag : FacadeType
  ptr : Ptr
deriving DecidableEq, Repr

/-- Modelled from the spec: the conversion of a facade back to the client it was
made from (`(*HttpApi)(f)`), which the facade types declare in files that are
not among the sources at hand; the spec has every facade "a thin adapter
constructed from that shared core". -/
def Facade.core (f : Facade) : Ptr :=
  f.ptr

/-- The method `HttpApi.Unixfs` (api.go, lines 137-139). -/
def HttpApi.Unixfs (api : Ptr) : Facade :=
  ⟨.UnixfsAPI, api⟩

/-- The method `HttpApi.Block` (api.go, lines 141-143). -/
def HttpApi.Block (api : Ptr) : Facade :=
  ⟨.BlockAPI, api⟩

/-- The method `HttpApi.Dag` (api.go, lines 145-147). -/
def HttpApi.Dag (api : Ptr) : Facade :=
  ⟨.HttpDagServ, api⟩

/-- The method `HttpApi.Name` (api.go, lines 149-151). -/
def HttpApi.Name (api : Ptr) : Facade :=
  ⟨.NameAPI, api⟩

/-- The method `HttpApi.Key` (api.go, lines 153-155). -/
def HttpApi.Key (api : Ptr) : Facade :=
  ⟨.KeyAPI, api⟩

/-- The method `HttpApi.Pin` (api.go, lines 157-159). -/
def HttpApi.Pin (api : Ptr) : Facade :=
  ⟨.PinAPI, api⟩

/-- The method `HttpApi.Object` (api.go, lines 161-163). -/
def HttpApi.Object (api : Ptr) : Facade :=
  ⟨.ObjectAPI, api⟩

/-- The method `HttpApi.Dht` (api.go, lines 165-167). -/
def HttpApi.Dht (api : Ptr) : Facade :=
  ⟨.DhtAPI, api⟩

/-- The method `HttpApi.Swarm` (api.go, lines 169-171). -/
def HttpApi.Swarm (api : Ptr) : Facade :=
  ⟨.SwarmAPI, api⟩

/-- The method `HttpApi.PubSub` (api.go, lines 173-175). -/
def HttpApi.PubSub (api : Ptr) : Facade :=
  ⟨.PubsubAPI, api⟩

/-! ## Predicates the properties are stated with -/

/-- Connection reuse is switched off for a client: its transport is a
`*gohttp.Transport` with `DisableKeepAlives` set.  A nil transport stands for
`DefaultTransport`, which leaves the flag at its zero value. -/
def Client.keepAlivesDisabled (c : Client) : Bool :=
  match c.Transport with
  | some (.httpTransport t) => t.DisableKeepAlives
  | _ => false

/-- A redirect policy that refuses every redirect with "unexpected redirect". -/
def RejectsEveryRedirect (policy : RedirectPolicy) : Prop :=
  ∀ (req : Request) (via : List Request), policy req via = some ⟨"unexpected redirect"⟩

/-- The client at `p` in `h` has a redirect policy installed, and that policy
refuses every redirect. -/
def HasRejectingPolicy (h : Heap) (p : Nat) : Prop :=
  ∃ api policy, h.api (some p) = some api ∧ api.httpcli.CheckRedirect = some policy ∧
    RejectsEveryRedirect policy

/-- A list of characters that are all white space. -/
def AllSpace (l : List Char) : Prop :=
  ∀ ch ∈ l, unicode.IsSpace ch = true

/-- A facade is the client `api` under another static type: converted back it is
the same pointer, so in every heap it reads the same daemon address, HTTP client
and global defaults, and a request builder made through it is the one made
through `api`. -/
def Retags (api : Ptr) (f : Facade) : Prop :=
  f.core = api ∧ (∀ h : Heap, h.api f.core = h.api api) ∧
    ∀ (command : String) (args : List String),
      HttpApi.request f.core command args = HttpApi.request api command args

/-! ## Concrete inputs for the examples -/

/-- The option `caopts.Api.Offline(b)`. -/
def sampleOffline (b : Bool) : ApiOption :=
  fun s => .ok { s with Offline := b }

/-- An option that fails. -/
def sampleBadOption : ApiOption :=
  fun _ => .error ⟨"bad option"⟩

/-- Apply the options in turn to the settings, stopping at the first error. -/
def sampleApplyOptions : List ApiOption → ApiSettings → Except GoError ApiSettings
  | [], s => .ok s
  | o :: os, s =>
    match o s with
    | .error e => .error e
    | .ok s2 => sampleApplyOptions os s2

/-- One possible behaviour of the imported functions: a daemon at
127.0.0.1:5001, and two repositories whose `api` files hold its address with
different white space around it. -/
def sampleDeps : Deps where
  DialArgs := fun a =>
    if a.bytes = [] then .error ⟨"empty multiaddr"⟩ else .ok ("tcp4", "127.0.0.1:5001")
  NewMultiaddr := fun s =>
    if s = "/ip4/127.0.0.1/tcp/5001" then .ok ⟨[4, 127, 0, 0, 1, 6, 19, 137]⟩
    else .error ⟨"invalid multiaddr"⟩
  ApiOptions := fun opts => sampleApplyOptions opts { Offline := false }
  Expand := fun p => if p = "~bad" then .error ⟨"cannot expand user-specific home dir"⟩ else .ok p
  Join := fun d f => d ++ "/" ++ f
  Stat := fun p => if p = "/r1/api" ∨ p = "/r2/api" then none else some ⟨"no such file"⟩
  ReadFile := fun p =>
    if p = "/r1/api" then .ok "/ip4/127.0.0.1/tcp/5001\n"
    else if p = "/r2/api" then .ok "  /ip4/127.0.0.1/tcp/5001"
    else .error ⟨"no such file"⟩
  Getenv := fun _ => ""

/-- The multiaddress of the sample daemon. -/
def sampleAddr : Multiaddr :=
  ⟨[4, 127, 0, 0, 1, 6, 19, 137]⟩

/-- A caller's client that reuses connections and follows every redirect. -/
def sampleClient : Client :=
  { Transport := some (.httpTransport { DisableKeepAlives := false }),
    CheckRedirect := some fun _ _ => none,
    Timeout := 30 }

/-- A heap holding the caller's client at address 0 and no `HttpApi`. -/
def sampleHeap : Heap :=
  { clients := [sampleClient], apis := [] }

/-- The client `NewApiWithClient` builds from the sample client. -/
def sampleApi : HttpApi :=
  { url := "127.0.0.1:5001",
    httpcli := { sampleClient with CheckRedirect := some rejectRedirect },
    applyGlobal := fun req => req }

/-- The sample heap after that call: the caller's client at address 0 of the
clients, the built `HttpApi` at address 0 of the apis. -/
def sampleApiHeap : Heap :=
  { clients := [sampleClient], apis := [sampleApi] }

/-- A request builder on which the caller has set "offline" to false. -/
def sampleBuilder : RequestBuilder :=
  (HttpApi.request (some 1) "add" ["a.txt", "b.txt"]).Option "offline" (.bool false)

/-- Whether a list of characters is all white space can be computed. -/
instance AllSpace.decidable (l : List Char) : Decidable (AllSpace l) :=
  inferInstanceAs (Decidable (∀ ch ∈ l, unicode.IsSpace ch = true))

/-! # Theorems -/

/-! ## The heap: allocation -/

theorem Heap.api_allocApi_new (h : Heap) (a : HttpApi) :
    (h.allocApi a).2.api (h.allocApi a).1 = some a := by
  simp [Heap.allocApi, Heap.api]

theorem Heap.api_allocApi_old (h : Heap) (a v : HttpApi) (q : Ptr) (hq : h.api q = some v) :
    (h.allocApi a).2.api q = some v := by
  cases q with
  | none => simp [Heap.api] at hq
  | some i =>
    simp only [Heap.api, Option.some_bind] at hq
    have hi : i < h.apis.length := (List.getElem?_eq_some_iff.mp hq).1
    simp [Heap.allocApi, Heap.api, List.getElem?_append_left hi, hq]

theorem Heap.clients_allocApi (h : Heap) (a : HttpApi) :
    (h.allocApi a).2.clients = h.clients := rfl

theorem Heap.client_allocClient_new (h : Heap) (c : Client) :
    (h.allocClient c).2.client (h.allocClient c).1 = some c := by
  simp [Heap.allocClient, Heap.client]

/-! ## `NewApiWithClient` and `NewApi` -/

/-- What a call of `NewApiWithClient` that returns a client did: the address
resolved, the supplied pointer held a client, and the result is the allocation
of a copy of that client with the rejecting policy installed. -/
theorem NewApiWithClient_done (E : Deps) (h : Heap) (a : Multiaddr) (c : Ptr) (p : Nat)
    (h2 : Heap) (hres : NewApiWithClient E h a c = .done (some p, h2)) :
    ∃ url cv, dialUrl E a = some url ∧ h.client c = some cv ∧
      (some p, h2) = h.allocApi
        { url := url, httpcli := { cv with CheckRedirect := some rejectRedirect },
          applyGlobal := fun req => req } := by
  unfold NewApiWithClient at hres
  cases hd : dialUrl E a with
  | none => simp [hd] at hres
  | some url =>
    cases hc : h.client c with
    | none => simp [hd, hc] at hres
    | some cv =>
      simp only [hd, hc, Exec.done.injEq] at hres
      exact ⟨url, cv, rfl, rfl, hres.symm⟩

/-- A call of `NewApiWithClient` returns without a panic whenever the supplied
pointer holds a client. -/
theorem NewApiWithClient_returns (E : Deps) (h : Heap) (a : Multiaddr) (c : Ptr) (cv : Client)
    (hc : h.client c = some cv) :
    ∃ r, NewApiWithClient E h a c = .done r := by
  unfold NewApiWithClient
  cases hd : dialUrl E a with
  | none => exact ⟨_, rfl⟩
  | some url => simp [hc]

theorem dialUrl_of_DialArgs (E : Deps) (a : Multiaddr) (net url : String)
    (hd : E.DialArgs a = .ok (net, url)) : ∃ u, dialUrl E a = some u := by
  unfold dialUrl
  rw [hd]
  simp only
  cases hm : E.NewMultiaddr url with
  | error e => exact ⟨_, rfl⟩
  | ok a2 =>
    simp only
    cases hd2 : E.DialArgs a2 with
    | error e => exact ⟨_, rfl⟩
    | ok r => exact ⟨_, rfl⟩

theorem rejectRedirect_rejects : RejectsEveryRedirect rejectRedirect := by
  intro req via
  rfl

theorem hasRejectingPolicy_of_done (E : Deps) (h : Heap) (a : Multiaddr) (c : Ptr) (p : Nat)
    (h2 : Heap) (hres : NewApiWithClient E h a c = .done (some p, h2)) :
    HasRejectingPolicy h2 p := by
  obtain ⟨url, cv, -, -, halloc⟩ := NewApiWithClient_done E h a c p h2 hres
  have hnew := Heap.api_allocApi_new h
    { url := url, httpcli := { cv with CheckRedirect := some rejectRedirect },
      applyGlobal := fun req => req }
  rw [← halloc] at hnew
  exact ⟨_, rejectRedirect, hnew, rfl, rejectRedirect_rejects⟩

/-- C1: every client that `NewApiWithClient` builds (and so every client that
`NewApi` builds), from any address and any supplied HTTP client, has a redirect
policy installed that answers every pending request and every list of prior
requests with the error "unexpected redirect", whatever policy the supplied
client carried; and a client is built whenever the supplied pointer holds a
client and `DialArgs` accepts the address. -/
theorem NewApiWithClient_rejects_every_redirect (E : Deps) (h : Heap) (a : Multiaddr) (c : Ptr) :
    (∀ p h2, (NewApiWithClient E h a c = .done (some p, h2) ∨
        NewApi E h a = .done (some p, h2)) → HasRejectingPolicy h2 p) ∧
    (∀ cv net url, h.client c = some cv → E.DialArgs a = .ok (net, url) →
      ∃ p h2, NewApiWithClient E h a c = .done (some p, h2)) := by
  constructor
  · intro p h2 hres
    rcases hres with hres | hres
    · exact hasRejectingPolicy_of_done E h a c p h2 hres
    · exact hasRejectingPolicy_of_done E _ a _ p h2 hres
  · intro cv net url hc hd
    obtain ⟨u, hu⟩ := dialUrl_of_DialArgs E a net url hd
    refine ⟨h.apis.length, ?_⟩
    simp [NewApiWithClient, hu, hc, Heap.allocApi]

/-- C1, at a concrete input: the sample client follows every redirect; the
client built from it refuses them. -/
theorem NewApiWithClient_rejects_every_redirect_witness :
    NewApiWithClient sampleDeps sampleHeap sampleAddr (some 0) =
        .done (some 0, (sampleHeap.allocApi
          { url := "127.0.0.1:5001",
            httpcli := { sampleClient with CheckRedirect := some rejectRedirect },
            applyGlobal := fun req => req }).2) ∧
      HasRejectingPolicy (sampleHeap.allocApi
          { url := "127.0.0.1:5001",
            httpcli := { sampleClient with CheckRedirect := some rejectRedirect },
            applyGlobal := fun req => req }).2 0 :=
  ⟨rfl, (NewApiWithClient_rejects_every_redirect sampleDeps sampleHeap sampleAddr (some 0)).1
    0 _ (Or.inl rfl)⟩

/-- The client a call of `NewApiWithClient` built: the cell it returned holds
the resolved address, a copy of the supplied client with only the redirect
policy replaced, and defaults that do nothing. -/
theorem NewApiWithClient_cell (E : Deps) (h : Heap) (a : Multiaddr) (c : Ptr) (p : Nat)
    (h2 : Heap) (hres : NewApiWithClient E h a c = .done (some p, h2)) :
    ∃ url cv, dialUrl E a = some url ∧ h.client c = some cv ∧ h2.clients = h.clients ∧
      h2.api (some p) = some
        { url := url, httpcli := { cv with CheckRedirect := some rejectRedirect },
          applyGlobal := fun req => req } := by
  obtain ⟨url, cv, hd, hc, halloc⟩ := NewApiWithClient_done E h a c p h2 hres
  have hnew := Heap.api_allocApi_new h
    { url := url, httpcli := { cv with CheckRedirect := some rejectRedirect },
      applyGlobal := fun req => req }
  have hcl := Heap.clients_allocApi h
    { url := url, httpcli := { cv with CheckRedirect := some rejectRedirect },
      applyGlobal := fun req => req }
  rw [← halloc] at hnew hcl
  exact ⟨url, cv, hd, hc, hcl, hnew⟩

/-- C2, as stated, fails: built by `NewApiWithClient` from the sample client,
whose transport has `DisableKeepAlives` false, the client holds that very
transport, so connection reuse is not disabled. -/
theorem NewApiWithClient_keepAlives_counterexample :
    ∃ h2 api, NewApiWithClient sampleDeps sampleHeap sampleAddr (some 0) = .done (some 0, h2) ∧
      h2.api (some 0) = some api ∧
      api.httpcli.Transport = some (.httpTransport { DisableKeepAlives := false }) ∧
      api.httpcli.keepAlivesDisabled = false :=
  ⟨_, _, rfl, rfl, rfl, rfl⟩

/-- C2, amended: every client `NewApi` builds, from any address, holds an HTTP
client with connection reuse disabled; a client `NewApiWithClient` builds holds
the transport of the supplied HTTP client unchanged, so it has connection reuse
disabled exactly when the supplied client has. -/
theorem NewApi_keepAlives_disabled (E : Deps) (h : Heap) (a : Multiaddr) (c : Ptr) (p : Nat)
    (h2 : Heap) :
    (NewApi E h a = .done (some p, h2) →
      ∃ api, h2.api (some p) = some api ∧ api.httpcli.keepAlivesDisabled = true) ∧
    (NewApiWithClient E h a c = .done (some p, h2) →
      ∃ api cv, h2.api (some p) = some api ∧ h.client c = some cv ∧
        api.httpcli.Transport = cv.Transport ∧
        api.httpcli.keepAlivesDisabled = cv.keepAlivesDisabled) := by
  constructor
  · intro hres
    obtain ⟨url, cv, -, hc, -, hcell⟩ := NewApiWithClient_cell E _ a _ p h2 hres
    have hc2 := (Heap.client_allocClient_new h
      { Transport := some (.httpTransport
          { Proxy := some .ProxyFromEnvironment, DisableKeepAlives := true }) }).symm.trans hc
    refine ⟨_, hcell, ?_⟩
    rw [← Option.some.inj hc2]
    rfl
  · intro hres
    obtain ⟨url, cv, -, hc, -, hcell⟩ := NewApiWithClient_cell E h a c p h2 hres
    exact ⟨_, cv, hcell, hc, rfl, rfl⟩

/-- C2, amended, at a concrete input: `NewApi` on the sample heap puts its own
client at address 1 and the `HttpApi` at address 0. -/
theorem NewApi_keepAlives_disabled_witness :
    ∃ h2, NewApi sampleDeps sampleHeap sampleAddr = .done (some 0, h2) ∧
      ∃ api, h2.api (some 0) = some api ∧ api.httpcli.keepAlivesDisabled = true :=
  ⟨_, rfl, (NewApi_keepAlives_disabled sampleDeps sampleHeap sampleAddr none 0 _).1 rfl⟩

/-- C9: `NewApiWithClient` does not write to the supplied HTTP client.  Whatever
the call returns, every `gohttp.Client` of the heap, the supplied one among
them, is as it was (its redirect policy and every other field); the client the
call builds holds a copy of the supplied value, and the copy alone carries the
rejecting policy, its other fields being those of the supplied client. -/
theorem NewApiWithClient_leaves_supplied_client (E : Deps) (h : Heap) (a : Multiaddr) (c : Ptr)
    (r : Ptr) (h2 : Heap) (hres : NewApiWithClient E h a c = .done (r, h2)) :
    h2.clients = h.clients ∧ h2.client c = h.client c ∧
    (∀ p, r = some p → ∃ api cv, h2.api (some p) = some api ∧ h2.client c = some cv ∧
      api.httpcli = { cv with CheckRedirect := some rejectRedirect } ∧
      api.httpcli.Transport = cv.Transport ∧ api.httpcli.Jar = cv.Jar ∧
      api.httpcli.Timeout = cv.Timeout) := by
  have hcl : h2.clients = h.clients := by
    cases r with
    | some p =>
      obtain ⟨-, -, -, -, hcl, -⟩ := NewApiWithClient_cell E h a c p h2 hres
      exact hcl
    | none =>
      unfold NewApiWithClient at hres
      cases hd : dialUrl E a with
      | none =>
        simp only [hd, Exec.done.injEq, Prod.mk.injEq, true_and] at hres
        rw [hres]
      | some url =>
        cases hc : h.client c with
        | none => simp [hd, hc] at hres
        | some cv => simp [hd, hc, Heap.allocApi] at hres
  have hsame : h2.client c = h.client c := by
    simp only [Heap.client, hcl]
  refine ⟨hcl, hsame, ?_⟩
  intro p hp
  subst hp
  obtain ⟨url, cv, -, hc, -, hcell⟩ := NewApiWithClient_cell E h a c p h2 hres
  exact ⟨_, cv, hcell, hsame.trans hc, rfl, rfl, rfl, rfl⟩

/-- C9, at a concrete input: after the call the sample client still follows
redirects. -/
theorem NewApiWithClient_leaves_supplied_client_witness :
    ∃ h2, NewApiWithClient sampleDeps sampleHeap sampleAddr (some 0) = .done (some 0, h2) ∧
      h2.clients = sampleHeap.clients ∧ h2.client (some 0) = some sampleClient :=
  ⟨_, rfl,
    (NewApiWithClient_leaves_supplied_client sampleDeps sampleHeap sampleAddr (some 0)
      (some 0) _ rfl).1,
    (NewApiWithClient_leaves_supplied_client sampleDeps sampleHeap sampleAddr (some 0)
      (some 0) _ rfl).2.1⟩

/-! ## `WithOptions` -/

/-- What a call of `WithOptions` that returns a client did: the options parsed,
the receiver held a client, no error is returned, and the result is the
allocation of a copy of the receiver with the new defaults. -/
theorem WithOptions_done (E : Deps) (h : Heap) (api : Ptr) (opts : List ApiOption) (p : Nat)
    (e : Option GoError) (h2 : Heap)
    (hres : HttpApi.WithOptions E h api opts = .done ((some p, e), h2)) :
    ∃ options v, E.ApiOptions opts = .ok options ∧ h.api api = some v ∧ e = none ∧
      (some p, h2) = h.allocApi { v with applyGlobal := offlineGlobal options } := by
  unfold HttpApi.WithOptions at hres
  cases ho : E.ApiOptions opts with
  | error err => simp [ho] at hres
  | ok options =>
    cases hv : h.api api with
    | none => simp [ho, hv] at hres
    | some v =>
      simp only [ho, hv, Exec.done.injEq, Prod.mk.injEq] at hres
      obtain ⟨⟨hp, he⟩, hh⟩ := hres
      refine ⟨options, v, rfl, rfl, he.symm, ?_⟩
      rw [← hp, ← hh]

/-- The heap after a call of `WithOptions` that returned a client: the new cell
holds the receiver's address and HTTP client with the new defaults, and every
cell that was there is as it was. -/
theorem WithOptions_cell (E : Deps) (h : Heap) (api : Ptr) (opts : List ApiOption) (p : Nat)
    (e : Option GoError) (h2 : Heap)
    (hres : HttpApi.WithOptions E h api opts = .done ((some p, e), h2)) :
    ∃ options v, E.ApiOptions opts = .ok options ∧ h.api api = some v ∧ e = none ∧
      h2.api (some p) = some { v with applyGlobal := offlineGlobal options } ∧
      h2.clients = h.clients ∧ ∀ q w, h.api q = some w → h2.api q = some w := by
  obtain ⟨options, v, ho, hv, he, halloc⟩ := WithOptions_done E h api opts p e h2 hres
  have hnew := Heap.api_allocApi_new h { v with applyGlobal := offlineGlobal options }
  have hcl := Heap.clients_allocApi h { v with applyGlobal := offlineGlobal options }
  have hold := Heap.api_allocApi_old h { v with applyGlobal := offlineGlobal options }
  rw [← halloc] at hnew hcl hold
  exact ⟨options, v, ho, hv, he, hnew, hcl, fun q w hq => hold w q hq⟩

theorem offlineGlobal_off (options : ApiSettings) (hoff : options.Offline = false)
    (rb : RequestBuilder) : offlineGlobal options rb = rb := by
  simp [offlineGlobal, hoff]

theorem offlineGlobal_on (options : ApiSettings) (hon : options.Offline = true)
    (rb : RequestBuilder) : offlineGlobal options rb = rb.Option "offline" (.bool true) := by
  simp [offlineGlobal, hon]

/-- C3, as stated, fails: on the client derived from the sample client with the
Offline default, applying the global defaults to a builder whose "offline"
option the caller set to false leaves it true, not false. -/
theorem WithOptions_offline_precedence_counterexample :
    sampleBuilder.opts "offline" = some (.bool false) ∧
    ∃ h2 d, HttpApi.WithOptions sampleDeps sampleApiHeap (some 0) [sampleOffline true] =
        .done ((some 1, none), h2) ∧
      h2.api (some 1) = some d ∧
      (d.applyGlobal sampleBuilder).opts "offline" = some (.bool true) ∧
      (d.applyGlobal sampleBuilder).opts "offline" ≠ sampleBuilder.opts "offline" :=
  ⟨by decide, _, _, rfl, rfl, by decide, by decide⟩

/-- C3, amended: for every client derived by `WithOptions` with the Offline
default requested, and every request builder on which the caller has set the
option "offline" to some value `v`, applying the client's global defaults to
that builder sets its "offline" option to true, whatever `v` was: the
client-wide default overwrites the per-call option. -/
theorem WithOptions_offline_overwrites (E : Deps) (h : Heap) (api : Ptr) (opts : List ApiOption)
    (options : ApiSettings) (p : Nat) (h2 : Heap)
    (ho : E.ApiOptions opts = .ok options) (hon : options.Offline = true)
    (hres : HttpApi.WithOptions E h api opts = .done ((some p, none), h2)) :
    ∃ d, h2.api (some p) = some d ∧
      ∀ (rb : RequestBuilder) (v : OptValue),
        (d.applyGlobal (rb.Option "offline" v)).opts "offline" = some (.bool true) := by
  obtain ⟨options2, w, ho2, -, -, hcell, -, -⟩ := WithOptions_cell E h api opts p none h2 hres
  rw [ho] at ho2
  cases ho2
  refine ⟨_, hcell, ?_⟩
  intro rb v
  show (offlineGlobal options (rb.Option "offline" v)).opts "offline" = some (.bool true)
  rw [offlineGlobal_on options hon]
  simp [RequestBuilder.Option]

/-- C3, amended, at a concrete input. -/
theorem WithOptions_offline_overwrites_witness :
    ∃ h2 d, HttpApi.WithOptions sampleDeps sampleApiHeap (some 0) [sampleOffline true] =
        .done ((some 1, none), h2) ∧ h2.api (some 1) = some d ∧
      ∀ (rb : RequestBuilder) (v : OptValue),
        (d.applyGlobal (rb.Option "offline" v)).opts "offline" = some (.bool true) :=
  ⟨_, _, rfl, rfl, by
    obtain ⟨d, hd, hall⟩ := WithOptions_offline_overwrites sampleDeps sampleApiHeap (some 0)
      [sampleOffline true] ⟨true⟩ 1 _ rfl rfl rfl
    cases hd
    exact hall⟩

/-- C4: for a client derived by `WithOptions` from options that parse: with
Offline set, applying the derived client's global defaults to a request builder
sets the option "offline" to true and leaves every other option, the arguments,
the command (and the headers, attachments and client binding) as they were;
with Offline not set, applying them leaves the builder unchanged.  The defaults
of a client fresh from `NewApiWithClient` leave every builder unchanged. -/
theorem WithOptions_applyGlobal (E : Deps) (h : Heap) (p : Nat) (h2 : Heap) :
    (∀ api opts options, E.ApiOptions opts = .ok options →
      HttpApi.WithOptions E h api opts = .done ((some p, none), h2) →
      ∃ d, h2.api (some p) = some d ∧
        (options.Offline = true → ∀ rb : RequestBuilder,
          (d.applyGlobal rb).opts "offline" = some (.bool true) ∧
          (∀ k, k ≠ "offline" → (d.applyGlobal rb).opts k = rb.opts k) ∧
          (d.applyGlobal rb).args = rb.args ∧ (d.applyGlobal rb).command = rb.command ∧
          (d.applyGlobal rb).headers = rb.headers ∧
          (d.applyGlobal rb).attachments = rb.attachments ∧
          (d.applyGlobal rb).shell = rb.shell) ∧
        (options.Offline = false → ∀ rb : RequestBuilder, d.applyGlobal rb = rb)) ∧
    (∀ a c, NewApiWithClient E h a c = .done (some p, h2) →
      ∃ v, h2.api (some p) = some v ∧ ∀ rb : RequestBuilder, v.applyGlobal rb = rb) := by
  constructor
  · intro api opts options ho hres
    obtain ⟨options2, w, ho2, -, -, hcell, -, -⟩ := WithOptions_cell E h api opts p none h2 hres
    rw [ho] at ho2
    cases ho2
    refine ⟨_, hcell, ?_, ?_⟩
    · intro hon rb
      show (offlineGlobal options rb).opts "offline" = some (.bool true) ∧
        (∀ k, k ≠ "offline" → (offlineGlobal options rb).opts k = rb.opts k) ∧
        (offlineGlobal options rb).args = rb.args ∧
        (offlineGlobal options rb).command = rb.command ∧
        (offlineGlobal options rb).headers = rb.headers ∧
        (offlineGlobal options rb).attachments = rb.attachments ∧
        (offlineGlobal options rb).shell = rb.shell
      rw [offlineGlobal_on options hon]
      refine ⟨by simp [RequestBuilder.Option], ?_, rfl, rfl, rfl, rfl, rfl⟩
      intro k hk
      simp [RequestBuilder.Option, hk]
    · intro hoff rb
      exact offlineGlobal_off options hoff rb
  · intro a c hres
    obtain ⟨url, cv, -, -, -, hcell⟩ := NewApiWithClient_cell E h a c p h2 hres
    exact ⟨_, hcell, fun rb => rfl⟩

/-- C4, at a concrete input: deriving with Offline set from the sample client,
the defaults turn "offline" on in the sample builder and keep its arguments. -/
theorem WithOptions_applyGlobal_witness :
    ∃ h2 d, HttpApi.WithOptions sampleDeps sampleApiHeap (some 0) [sampleOffline true] =
        .done ((some 1, none), h2) ∧ h2.api (some 1) = some d ∧
      (d.applyGlobal sampleBuilder).opts "offline" = some (.bool true) ∧
      (d.applyGlobal sampleBuilder).args = ["a.txt", "b.txt"] :=
  ⟨_, _, rfl, rfl, by
    obtain ⟨d, hd, hon, -⟩ := (WithOptions_applyGlobal sampleDeps sampleApiHeap 1 _).1 (some 0)
      [sampleOffline true] ⟨true⟩ rfl rfl
    cases hd
    exact ⟨(hon rfl sampleBuilder).1, (hon rfl sampleBuilder).2.2.1⟩⟩

/-- C5: `WithOptions` leaves its receiver unchanged, for every client and every
option list: the call returns, and afterwards the receiver's cell holds the same
daemon address, HTTP client and global defaults (as does every other cell that
was there); when the call succeeds, the derived client has the receiver's
daemon address and HTTP client, so it differs from the receiver in its global
defaults only. -/
theorem WithOptions_frame (E : Deps) (h : Heap) (api : Ptr) (c : HttpApi)
    (opts : List ApiOption) (hc : h.api api = some c) :
    ∃ r e h2, HttpApi.WithOptions E h api opts = .done ((r, e), h2) ∧
      h2.api api = some c ∧ h2.clients = h.clients ∧
      (∀ q w, h.api q = some w → h2.api q = some w) ∧
      (e = none → ∃ p d, r = some p ∧ h2.api (some p) = some d ∧
        d.url = c.url ∧ d.httpcli = c.httpcli ∧ d = { c with applyGlobal := d.applyGlobal }) ∧
      (e ≠ none → r = none ∧ h2 = h) := by
  cases ho : E.ApiOptions opts with
  | error err =>
    refine ⟨none, some err, h, ?_, hc, rfl, fun q w hq => hq, ?_, fun _ => ⟨rfl, rfl⟩⟩
    · simp [HttpApi.WithOptions, ho]
    · intro he
      cases he
  | ok options =>
    have hres : HttpApi.WithOptions E h api opts =
        .done ((some h.apis.length, none),
          (h.allocApi { c with applyGlobal := offlineGlobal options }).2) := by
      simp [HttpApi.WithOptions, ho, hc, Heap.allocApi]
    obtain ⟨options2, w, -, hw, -, hcell, hcl, hold⟩ :=
      WithOptions_cell E h api opts _ none _ hres
    rw [hc] at hw
    cases hw
    refine ⟨_, _, _, hres, hold api c hc, hcl, hold, ?_, ?_⟩
    · intro _
      exact ⟨_, _, rfl, hcell, rfl, rfl, rfl⟩
    · intro he
      exact absurd rfl he

/-- C5, at a concrete input: deriving from the sample client leaves it at
address 0 and puts the derived client at address 1. -/
theorem WithOptions_frame_witness :
    ∃ r e h2, HttpApi.WithOptions sampleDeps sampleApiHeap (some 0) [sampleOffline true] =
        .done ((r, e), h2) ∧ h2.api (some 0) = some sampleApi ∧
      h2.clients = sampleApiHeap.clients := by
  obtain ⟨r, e, h2, hres, hkeep, hcl, -⟩ := WithOptions_frame sampleDeps sampleApiHeap (some 0)
    sampleApi [sampleOffline true] rfl
  exact ⟨r, e, h2, hres, hkeep, hcl⟩

/-- C8: the global defaults of a client derived by `WithOptions` depend on the
options of that call only.  From any receiver, also one that was itself derived
with Offline set, a derivation without Offline gives defaults that leave every
request builder unchanged; and two derivations with the same options, from any
two receivers, give the same defaults. -/
theorem WithOptions_defaults_replace (E : Deps) (opts : List ApiOption) (options : ApiSettings)
    (ho : E.ApiOptions opts = .ok options) :
    (options.Offline = false → ∀ h api p h2,
      HttpApi.WithOptions E h api opts = .done ((some p, none), h2) →
      ∃ d, h2.api (some p) = some d ∧ ∀ rb : RequestBuilder, d.applyGlobal rb = rb) ∧
    (options.Offline = false → ∀ h api opts1 options1 p1 h1 p2 h2,
      E.ApiOptions opts1 = .ok options1 → options1.Offline = true →
      HttpApi.WithOptions E h api opts1 = .done ((some p1, none), h1) →
      HttpApi.WithOptions E h1 (some p1) opts = .done ((some p2, none), h2) →
      ∃ d, h2.api (some p2) = some d ∧ ∀ rb : RequestBuilder, d.applyGlobal rb = rb) ∧
    (∀ h api p h2 k apj q k2,
      HttpApi.WithOptions E h api opts = .done ((some p, none), h2) →
      HttpApi.WithOptions E k apj opts = .done ((some q, none), k2) →
      ∃ d1 d2, h2.api (some p) = some d1 ∧ k2.api (some q) = some d2 ∧
        d1.applyGlobal = d2.applyGlobal) := by
  have key : ∀ h api p h2, HttpApi.WithOptions E h api opts = .done ((some p, none), h2) →
      ∃ d, h2.api (some p) = some d ∧ d.applyGlobal = offlineGlobal options := by
    intro h api p h2 hres
    obtain ⟨options2, w, ho2, -, -, hcell, -, -⟩ := WithOptions_cell E h api opts p none h2 hres
    rw [ho] at ho2
    cases ho2
    exact ⟨_, hcell, rfl⟩
  refine ⟨?_, ?_, ?_⟩
  · intro hoff h api p h2 hres
    obtain ⟨d, hd, hg⟩ := key h api p h2 hres
    exact ⟨d, hd, fun rb => by rw [hg]; exact offlineGlobal_off options hoff rb⟩
  · intro hoff h api opts1 options1 p1 h1 p2 h2 _ _ _ hres
    obtain ⟨d, hd, hg⟩ := key h1 (some p1) p2 h2 hres
    exact ⟨d, hd, fun rb => by rw [hg]; exact offlineGlobal_off options hoff rb⟩
  · intro h api p h2 k apj q k2 hres1 hres2
    obtain ⟨d1, hd1, hg1⟩ := key h api p h2 hres1
    obtain ⟨d2, hd2, hg2⟩ := key k apj q k2 hres2
    exact ⟨d1, d2, hd1, hd2, hg1.trans hg2.symm⟩

/-- C8, at a concrete input: the sample client derived with Offline set, then
derived again with no option: the defaults of the second derivation leave the
sample builder's "offline" option false. -/
theorem WithOptions_defaults_replace_witness :
    ∃ h1 h2 d, HttpApi.WithOptions sampleDeps sampleApiHeap (some 0) [sampleOffline true] =
        .done ((some 1, none), h1) ∧
      HttpApi.WithOptions sampleDeps h1 (some 1) [] = .done ((some 2, none), h2) ∧
      h2.api (some 2) = some d ∧ d.applyGlobal sampleBuilder = sampleBuilder :=
  ⟨_, _, _, rfl, rfl, rfl, by
    obtain ⟨d, hd, hall⟩ := (WithOptions_defaults_replace sampleDeps [] ⟨false⟩ rfl).2.1 rfl
      sampleApiHeap (some 0) [sampleOffline true] ⟨true⟩ 1 _ 2 _ rfl rfl rfl rfl
    cases hd
    exact hall sampleBuilder⟩

/-! ## `request` and the facades -/

/-- C6: for every client, command name and list of positional arguments, the
builder `request` creates carries that command name and those arguments in the
order given (same length, same element at each index), is bound to the creating
client, and has no option set (nor any header or attachment). -/
theorem request_builder (api : Ptr) (command : String) (args : List String) :
    (HttpApi.request api command args).command = command ∧
    (HttpApi.request api command args).args = args ∧
    (HttpApi.request api command args).args.length = args.length ∧
    (∀ i : Nat, (HttpApi.request api command args).args[i]? = args[i]?) ∧
    (HttpApi.request api command args).shell = api ∧
    (∀ k, (HttpApi.request api command args).opts k = none) ∧
    (∀ k, (HttpApi.request api command args).headers k = none) ∧
    (HttpApi.request api command args).attachments = [] :=
  ⟨rfl, rfl, rfl, fun _ => rfl, rfl, fun _ => rfl, fun _ => rfl, rfl⟩

/-- C7: each of the ten facade accessors returns the client it is called on
under another static type: the facade has the client's daemon address, HTTP
client and global defaults, and a request builder created through it for a
command and arguments equals the one created through the client. -/
theorem facades_retag (api : Ptr) :
    Retags api (HttpApi.Unixfs api) ∧ Retags api (HttpApi.Block api) ∧
    Retags api (HttpApi.Dag api) ∧ Retags api (HttpApi.Name api) ∧
    Retags api (HttpApi.Key api) ∧ Retags api (HttpApi.Pin api) ∧
    Retags api (HttpApi.Object api) ∧ Retags api (HttpApi.Dht api) ∧
    Retags api (HttpApi.Swarm api) ∧ Retags api (HttpApi.PubSub api) := by
  refine ⟨?_, ?_, ?_, ?_, ?_, ?_, ?_, ?_, ?_, ?_⟩ <;>
    exact ⟨rfl, fun _ => rfl, fun _ _ => rfl⟩

/-! ## `ApiAddr` -/

theorem dropWhile_append_allSpace (pre rest : List Char) (hpre : AllSpace pre) :
    (pre ++ rest).dropWhile unicode.IsSpace = rest.dropWhile unicode.IsSpace := by
  induction pre with
  | nil => rfl
  | cons ch pre ih =>
    have hch : unicode.IsSpace ch = true := hpre ch (List.mem_cons_self _ _)
    have hrest : AllSpace pre := fun x hx => hpre x (List.mem_cons_of_mem _ hx)
    simp only [List.cons_append, List.dropWhile_cons, hch, if_true]
    exact ih hrest

theorem rdropWhile_append_allSpace (l post : List Char) (hpost : AllSpace post) :
    (l ++ post).rdropWhile unicode.IsSpace = l.rdropWhile unicode.IsSpace := by
  unfold List.rdropWhile
  rw [List.reverse_append, dropWhile_append_allSpace]
  intro ch hch
  exact hpost ch (List.mem_reverse.mp hch)

/-- White space around a text does not change what `strings.TrimSpace` gives. -/
theorem TrimSpace_padded (pre body post : List Char) (hpre : AllSpace pre)
    (hpost : AllSpace post) :
    strings.TrimSpace (String.mk (pre ++ body ++ post)) = strings.TrimSpace (String.mk body) := by
  unfold strings.TrimSpace
  congr 1
  show ((pre ++ body ++ post).dropWhile unicode.IsSpace).rdropWhile unicode.IsSpace =
    (body.dropWhile unicode.IsSpace).rdropWhile unicode.IsSpace
  rw [List.append_assoc, dropWhile_append_allSpace pre _ hpre]
  by_cases hb : ∀ ch ∈ body, unicode.IsSpace ch = true
  · have h1 : AllSpace (body ++ post) := by
      intro ch hch
      rcases List.mem_append.mp hch with hm | hm
      · exact hb ch hm
      · exact hpost ch hm
    have e1 := dropWhile_append_allSpace (body ++ post) [] h1
    have e2 := dropWhile_append_allSpace body [] hb
    simp only [List.append_nil] at e1 e2
    rw [e1, e2]
  · have hsplit : (body ++ post).dropWhile unicode.IsSpace =
        body.dropWhile unicode.IsSpace ++ post := by
      clear hpre hpost
      induction body with
      | nil => exact absurd (fun ch hch => by simp at hch) hb
      | cons x xs ih =>
        by_cases hx : unicode.IsSpace x = true
        · simp only [List.cons_append, List.dropWhile_cons, hx, if_true]
          apply ih
          intro hall
          apply hb
          intro ch hch
          rcases List.mem_cons.mp hch with hm | hm
          · rw [hm]; exact hx
          · exact hall ch hm
        · simp [List.dropWhile_cons, hx]
    rw [hsplit, rdropWhile_append_allSpace _ _ hpost]

/-- C10: `ApiAddr` returns nil whenever a step fails (the home-directory
expansion errors, the file "api" under the expanded directory does not exist or
cannot be read, or its content without leading and trailing white space is not a
valid multiaddress), and otherwise returns the multiaddress parsed from the
content without leading and trailing white space; so two api files whose
contents differ in the white space around them only give the same result. -/
theorem ApiAddr_result (E : Deps) (ipfspath : String) :
    (∀ e, E.Expand ipfspath = .error e → ApiAddr E ipfspath = none) ∧
    (∀ baseDir, E.Expand ipfspath = .ok baseDir →
      (∀ e, E.Stat (E.Join baseDir "api") = some e → ApiAddr E ipfspath = none) ∧
      (∀ e, E.ReadFile (E.Join baseDir "api") = .error e → ApiAddr E ipfspath = none) ∧
      (∀ content, E.Stat (E.Join baseDir "api") = none →
        E.ReadFile (E.Join baseDir "api") = .ok content →
        (∀ e, E.NewMultiaddr (strings.TrimSpace content) = .error e →
          ApiAddr E ipfspath = none) ∧
        (∀ maddr, E.NewMultiaddr (strings.TrimSpace content) = .ok maddr →
          ApiAddr E ipfspath = some maddr))) ∧
    (∀ path2 dir1 dir2 pre1 post1 pre2 post2 body,
      E.Expand ipfspath = .ok dir1 → E.Expand path2 = .ok dir2 →
      E.Stat (E.Join dir1 "api") = none → E.Stat (E.Join dir2 "api") = none →
      E.ReadFile (E.Join dir1 "api") = .ok (String.mk (pre1 ++ body ++ post1)) →
      E.ReadFile (E.Join dir2 "api") = .ok (String.mk (pre2 ++ body ++ post2)) →
      AllSpace pre1 → AllSpace post1 → AllSpace pre2 → AllSpace post2 →
      ApiAddr E ipfspath = ApiAddr E path2) := by
  refine ⟨?_, ?_, ?_⟩
  · intro e he
    simp [ApiAddr, he]
  · intro baseDir hb
    refine ⟨?_, ?_, ?_⟩
    · intro e hs
      simp [ApiAddr, hb, DefaultApiFile, hs]
    · intro e hr
      cases hs : E.Stat (E.Join baseDir "api") with
      | some e2 => simp [ApiAddr, hb, DefaultApiFile, hs]
      | none => simp [ApiAddr, hb, DefaultApiFile, hs, hr]
    · intro content hs hr
      constructor
      · intro e hm
        simp [ApiAddr, hb, DefaultApiFile, hs, hr, hm]
      · intro maddr hm
        simp [ApiAddr, hb, DefaultApiFile, hs, hr, hm]
  · intro path2 dir1 dir2 pre1 post1 pre2 post2 body hb1 hb2 hs1 hs2 hr1 hr2 h1 h2 h3 h4
    simp only [ApiAddr, hb1, hb2, DefaultApiFile, hs1, hs2, hr1, hr2,
      TrimSpace_padded pre1 body post1 h1 h2, TrimSpace_padded pre2 body post2 h3 h4]

/-- C10, at a concrete input: the two sample repositories hold the daemon's
address followed by a newline and preceded by two blanks; both give the address. -/
theorem ApiAddr_result_witness :
    ApiAddr sampleDeps "/r1" = some sampleAddr ∧ ApiAddr sampleDeps "/r1" = ApiAddr sampleDeps "/r2" :=
  ⟨(((ApiAddr_result sampleDeps "/r1").2.1 "/r1" rfl).2.2 "/ip4/127.0.0.1/tcp/5001\n"
      rfl rfl).2 sampleAddr rfl,
    (ApiAddr_result sampleDeps "/r1").2.2 "/r2" "/r1" "/r2" [] ['\n'] [' ', ' '] []
      "/ip4/127.0.0.1/tcp/5001".data rfl rfl rfl rfl rfl rfl
      (by decide) (by decide) (by decide) (by decide)⟩

end httpapi
